import Mathlib

/-!
Verification of the batch-inference transcript-summarization notebook
(`batch-inference/batch-inference-transcript-summarization.ipynb`).

The notebook's substantive logic is shallowly embedded here:

* a `Json` value type standing for the Python dict/list/str/number values the
  notebook passes to `json.dumps` and receives from `json.loads`, together
  with executable models `dumps` and `loads` of those two library functions
  (numbers are carried as their decimal literal text, so `0.1` survives
  serialization verbatim, exactly as the repr-round-tripping Python float
  does; `dumps` uses the library's default item and key separators and
  escapes the string characters the default encoder escapes, except that
  code points above ASCII are left unescaped, which does not affect any
  round-trip statement);
* `prepare_model_inputs`, `write_jsonl`, `upload_to_s3` translated from the
  notebook's function definitions, with the S3 client, the wall clock and
  the local file system passed in as explicit parameters;
* the job-status polling `while` loop as a fuel-indexed runner `poll_job`
  over the sequence of statuses the service returns;
* the output-retrieval cell as `retrieve_output_data` (line loop with the
  `try`/`except` result accumulation) plus the S3 key it fetches.
-/

set_option maxRecDepth 100000

namespace BatchInference

/-- Open-brace character, written by code point so that no brace literal
appears in the source text. -/
@[reducible] def braceL : Char := Char.ofNat 123

/-- Close-brace character, written by code point. -/
@[reducible] def braceR : Char := Char.ofNat 125

/-- A JSON value as handled by the notebook: the image of the Python data the
notebook builds (dicts with string keys in insertion order, lists, strings,
numbers, booleans, None). A number is carried as its decimal literal text,
e.g. `jnum "0.1"`, which is exactly the token `json.dumps` writes and
`json.loads` reads for the float `0.1`. -/
inductive Json where
  | jnull : Json
  | jbool : Bool → Json
  | jnum : String → Json
  | jstr : String → Json
  | jarr : List Json → Json
  | jobj : List (String × Json) → Json
deriving Repr

/-- Decimal digit test used by the number lexer. -/
def isDigitChar (c : Char) : Bool := decide ('0' ≤ c) && decide (c ≤ '9')

/-- Characters that may occur anywhere in a JSON number token. -/
def isNumChar (c : Char) : Bool :=
  isDigitChar c || c = '-' || c = '+' || c = '.' || c = 'e' || c = 'E'

/-- Characters that may start a JSON number token. -/
def isNumStart (c : Char) : Bool := c = '-' || isDigitChar c

/-- A stored number literal is acceptable when it is nonempty, starts like a
number and consists of number characters only; every literal the notebook
produces (`300`, `0.1`, `100`, token counts) satisfies this. -/
def numLitOk (lit : String) : Bool :=
  match lit.data with
  | [] => false
  | c :: _ => isNumStart c && lit.data.all isNumChar

/-- JSON whitespace, as skipped by the `json.loads` lexer. -/
def isWsChar (c : Char) : Bool := c = ' ' || c = '\t' || c = '\n' || c = '\r'

/-- The remainder after a number token must not be able to extend it: empty
input or a non-number character first. Every delimiter the serializer can
emit after a number (comma, closing bracket, closing brace, newline, end of
line) qualifies. -/
def stopsNum : List Char → Bool
  | [] => true
  | c :: _ => !(isNumChar c)

/-- Lower-case hexadecimal digit for a value below 16 (the case
`json.dumps` emits in `\u00xx` escapes). -/
def hexDigitChar (n : Nat) : Char :=
  if n < 10 then Char.ofNat (48 + n) else Char.ofNat (87 + n)

/-- Value of one hexadecimal digit, upper or lower case, as accepted inside a
`\uXXXX` escape by `json.loads`. -/
def hexDigitVal (c : Char) : Option Nat :=
  if isDigitChar c then some (c.toNat - 48)
  else if decide ('a' ≤ c) && decide (c ≤ 'f') then some (c.toNat - 87)
  else if decide ('A' ≤ c) && decide (c ≤ 'F') then some (c.toNat - 55)
  else none

/-- Value of a four-digit hexadecimal escape body. -/
def hexQuad (a b c d : Char) : Option Nat :=
  match hexDigitVal a, hexDigitVal b, hexDigitVal c, hexDigitVal d with
  | some va, some vb, some vc, some vd => some (((va * 16 + vb) * 16 + vc) * 16 + vd)
  | _, _, _, _ => none

/-- How the default `json.dumps` encoder writes one character inside a string
literal: the two structural characters and the five short control escapes get
a backslash form, the remaining control characters get `\u00xx`, everything
else is written as itself. -/
def escChar (c : Char) : List Char :=
  if c = '"' then ['\\', '"']
  else if c = '\\' then ['\\', '\\']
  else if c = '\n' then ['\\', 'n']
  else if c = '\r' then ['\\', 'r']
  else if c = '\t' then ['\\', 't']
  else if c = Char.ofNat 8 then ['\\', 'b']
  else if c = Char.ofNat 12 then ['\\', 'f']
  else if c.toNat < 32 then
    ['\\', 'u', '0', '0', hexDigitChar (c.toNat / 16), hexDigitChar (c.toNat % 16)]
  else [c]

/-- The escaped body of a string literal. -/
def escStr (cs : List Char) : List Char := cs.flatMap escChar

/-- A complete JSON string literal for `s`: quote, escaped body, quote. -/
def dumpsStr (s : String) : List Char := '"' :: (escStr s.data ++ ['"'])

mutual

/-- The characters `json.dumps` writes for a value, with the default
separators: items joined by comma-space, keys and values joined by
colon-space. -/
def dumpsVal : Json → List Char
  | .jnull => ['n', 'u', 'l', 'l']
  | .jbool true => ['t', 'r', 'u', 'e']
  | .jbool false => ['f', 'a', 'l', 's', 'e']
  | .jnum lit => lit.data
  | .jstr s => dumpsStr s
  | .jarr es => '[' :: (dumpsElems es ++ [']'])
  | .jobj fs => braceL :: (dumpsFields fs ++ [braceR])

/-- Array elements: first element, then comma-space separated rest. -/
def dumpsElems : List Json → List Char
  | [] => []
  | e :: es => dumpsVal e ++ dumpsMoreElems es

/-- The comma-space separated tail of an array body. -/
def dumpsMoreElems : List Json → List Char
  | [] => []
  | e :: es => ',' :: ' ' :: (dumpsVal e ++ dumpsMoreElems es)

/-- Object members: first `key: value` pair, then comma-space separated rest. -/
def dumpsFields : List (String × Json) → List Char
  | [] => []
  | (k, v) :: fs => dumpsStr k ++ ':' :: ' ' :: (dumpsVal v ++ dumpsMoreFields fs)

/-- The comma-space separated tail of an object body. -/
def dumpsMoreFields : List (String × Json) → List Char
  | [] => []
  | (k, v) :: fs => ',' :: ' ' :: (dumpsStr k ++ ':' :: ' ' :: (dumpsVal v ++ dumpsMoreFields fs))

end

/-- `json.dumps` of one value, as a string. -/
def dumps (j : Json) : String := String.mk (dumpsVal j)

mutual

/-- A value is well formed when every number literal inside it is an
acceptable number token. Everything the notebook serializes is well formed. -/
def jsonWF : Json → Bool
  | .jnull => true
  | .jbool _ => true
  | .jnum lit => numLitOk lit
  | .jstr _ => true
  | .jarr es => jsonWFList es
  | .jobj fs => jsonWFFields fs

/-- Well-formedness of an element list. -/
def jsonWFList : List Json → Bool
  | [] => true
  | e :: es => jsonWF e && jsonWFList es

/-- Well-formedness of a member list. -/
def jsonWFFields : List (String × Json) → Bool
  | [] => true
  | (_, v) :: fs => jsonWF v && jsonWFFields fs

end

/-- Drop leading JSON whitespace, as the `json.loads` lexer does between
tokens. -/
def dropWs : List Char → List Char
  | [] => []
  | c :: cs => if isWsChar c then dropWs cs else c :: cs

/-- The single-character escapes `json.loads` accepts after a backslash: the
three self-representing characters, and the five control-character names. -/
def escShort (e : Char) : Option Char :=
  if e = 'n' then some '\n'
  else if e = 't' then some '\t'
  else if e = 'r' then some '\r'
  else if e = 'b' then some (Char.ofNat 8)
  else if e = 'f' then some (Char.ofNat 12)
  else if e = '"' || e = '\\' || e = '/' then some e
  else none

/-- Scan the body of a string literal after its opening quote, undoing the
escapes `json.loads` accepts, up to the closing quote. Returns the decoded
content and the input after the closing quote. -/
def scanStr : List Char → Option (List Char × List Char)
  | [] => none
  | c :: cs =>
    if c = '"' then some ([], cs)
    else if c = '\\' then
      match cs with
      | 'u' :: h1 :: h2 :: h3 :: h4 :: cs2 =>
        (match hexQuad h1 h2 h3 h4, scanStr cs2 with
         | some n, some (content, after) => some (Char.ofNat n :: content, after)
         | _, _ => none)
      | e :: cs2 =>
        (match escShort e, scanStr cs2 with
         | some d, some (content, after) => some (d :: content, after)
         | _, _ => none)
      | [] => none
    else
      match scanStr cs with
      | some (content, after) => some (c :: content, after)
      | none => none

mutual

/-- One JSON value from the front of the input, fuel-indexed for totality.
Mirrors the `json.loads` grammar on the tokens the notebook's data uses:
leading whitespace is skipped, then the first character dispatches to a
string, array, object, keyword or number. Returns the value and the
remaining input. -/
def parseVal : Nat → List Char → Option (Json × List Char)
  | 0, _ => none
  | fuel + 1, cs =>
    match dropWs cs with
    | [] => none
    | c :: cs2 =>
      if c = '"' then
        match scanStr cs2 with
        | some (content, after) => some (.jstr (String.mk content), after)
        | none => none
      else if c = '[' then
        match dropWs cs2 with
        | [] => none
        | d :: cs3 =>
          if d = ']' then some (.jarr [], cs3)
          else
            match parseItems fuel (d :: cs3) with
            | some (es, after) => some (.jarr es, after)
            | none => none
      else if c = braceL then
        match dropWs cs2 with
        | [] => none
        | d :: cs3 =>
          if d = braceR then some (.jobj [], cs3)
          else
            match parseEntries fuel (d :: cs3) with
            | some (fs, after) => some (.jobj fs, after)
            | none => none
      else if c = 'n' then
        match cs2 with
        | 'u' :: 'l' :: 'l' :: cs3 => some (.jnull, cs3)
        | _ => none
      else if c = 't' then
        match cs2 with
        | 'r' :: 'u' :: 'e' :: cs3 => some (.jbool true, cs3)
        | _ => none
      else if c = 'f' then
        match cs2 with
        | 'a' :: 'l' :: 's' :: 'e' :: cs3 => some (.jbool false, cs3)
        | _ => none
      else if isNumStart c then
        some (.jnum (String.mk ((c :: cs2).takeWhile isNumChar)),
              (c :: cs2).dropWhile isNumChar)
      else none

/-- One or more comma-separated array elements followed by the closing
bracket (the empty array is recognized in `parseVal`). -/
def parseItems : Nat → List Char → Option (List Json × List Char)
  | 0, _ => none
  | fuel + 1, cs =>
    match parseVal fuel cs with
    | none => none
    | some (v, cs2) =>
      match dropWs cs2 with
      | [] => none
      | d :: cs3 =>
        if d = ',' then
          match parseItems fuel cs3 with
          | some (es, after) => some (v :: es, after)
          | none => none
        else if d = ']' then some ([v], cs3)
        else none

/-- One or more comma-separated `"key": value` members followed by the
closing brace (the empty object is recognized in `parseVal`). -/
def parseEntries : Nat → List Char → Option (List (String × Json) × List Char)
  | 0, _ => none
  | fuel + 1, cs =>
    match dropWs cs with
    | [] => none
    | c :: cs2 =>
      if c = '"' then
        match scanStr cs2 with
        | none => none
        | some (key, cs3) =>
          match dropWs cs3 with
          | [] => none
          | d :: cs4 =>
            if d = ':' then
              match parseVal fuel cs4 with
              | none => none
              | some (v, cs5) =>
                match dropWs cs5 with
                | [] => none
                | e :: cs6 =>
                  if e = ',' then
                    match parseEntries fuel cs6 with
                    | some (fs, after) => some ((String.mk key, v) :: fs, after)
                    | none => none
                  else if e = braceR then some ([(String.mk key, v)], cs6)
                  else none
            else none
      else none

end

/-- `json.loads`: parse one complete document; anything but trailing
whitespace after the value is an error. -/
def loads (s : String) : Option Json :=
  match parseVal (s.data.length + 1) s.data with
  | some (j, after) => if dropWs after = [] then some j else none
  | none => none

/-- Python's `str.splitlines` on newline-separated text: pieces between
newline characters, with no empty piece after a trailing newline. -/
def splitlines : List Char → List (List Char)
  | [] => []
  | c :: cs =>
    if c = '\n' then [] :: splitlines cs
    else
      match splitlines cs with
      | [] => [[c]]
      | l :: ls => (c :: l) :: ls

/-! ### The notebook's functions -/

/-- The fixed instruction template of `prepare_model_inputs`: the triple-quoted
f-string up to the interpolated `file_content` (its line break and the 24
spaces of continuation-line indentation are part of the string). -/
def promptTemplate : String :=
  "Write an accurate 250 word gender-neutral summary of the following text without adding preamble or \n                        additonal information not present in the original text: "

/-- The request `body` dict built by `prepare_model_inputs` for one source
text, with the generation parameters exactly as the notebook writes them. -/
def requestBody (file_content : String) : Json :=
  .jobj
    [("anthropic_version", .jstr "bedrock-2023-05-31"),
     ("messages",
      .jarr [.jobj
        [("role", .jstr "user"),
         ("content",
          .jarr [.jobj
            [("type", .jstr "text"),
             ("text", .jstr (promptTemplate ++ file_content))]])]]),
     ("max_tokens", .jnum "300"),
     ("temperature", .jnum "0.1"),
     ("top_p", .jnum "0.1"),
     ("top_k", .jnum "100")]

/-- The `model_input` dict appended for one source object: record id and
model input. -/
def modelInputRecord (record_id : String) (file_content : String) : Json :=
  .jobj [("recordId", .jstr record_id), ("modelInput", requestBody file_content)]

/-- The body of the `for obj in response.get('Contents', [])` loop of
`prepare_model_inputs`, one recursive step per listed key. `getObject` stands
for `s3.get_object` plus the UTF-8 decode (an exception is `Except.error`),
`clock i` for the `int(datetime.now().timestamp())` observed in iteration
`i`. A read failure aborts the whole loop, as the uncaught Python exception
does. -/
def prepareAux (getObject : String → Except ε String) (clock : Nat → Int) :
    List String → Nat → Except ε (List Json)
  | [], _ => .ok []
  | key :: keys, i =>
    match getObject key with
    | .error e => .error e
    | .ok file_content =>
      match prepareAux getObject clock keys (i + 1) with
      | .error e => .error e
      | .ok rest => .ok (modelInputRecord (toString (clock i)) file_content :: rest)

/-- `prepare_model_inputs`: list the bucket (`contents` is the optional
`Contents` entry of the `list_objects_v2` response, holding the object keys),
then build one model input per object. -/
def prepare_model_inputs (contents : Option (List String))
    (getObject : String → Except ε String) (clock : Nat → Int) :
    Except ε (List Json) :=
  prepareAux getObject clock (contents.getD []) 0

/-- `write_jsonl`: the character contents of the file it writes, one
`json.dumps` line plus newline per item. -/
def write_jsonl (data : List Json) : List Char :=
  (data.map fun item => dumpsVal item ++ ['\n']).flatten

/-- The local path argument of `upload_to_s3`, as the three cases its
`os.path` tests distinguish: a single file (with the success of its one
upload call), a directory (with the `os.walk` file list, each with its
upload call's success), or neither. -/
inductive LocalPath where
  | file : String → Bool → LocalPath
  | directory : List (String × Bool) → LocalPath
  | other : LocalPath

/-- The `object_name` computed by `upload_to_s3` from the optional
`bucket_subfolder` and a file's name. -/
def object_name_for (bucket_subfolder : Option String) (name : String) : String :=
  match bucket_subfolder with
  | none => name
  | some sub => sub ++ "/" ++ name

/-- The directory walk of `upload_to_s3`: every file is attempted, a failed
upload is caught and printed and the walk continues. Returns the attempted
uploads as (object name, success). -/
def uploadWalk (bucket_subfolder : Option String) :
    List (String × Bool) → List (String × Bool)
  | [] => []
  | (rel, ok) :: rest => (object_name_for bucket_subfolder rel, ok) :: uploadWalk bucket_subfolder rest

/-- `upload_to_s3`: returns the function's Python return value (`some true` /
`some false` for the single-file branch, `none` for the directory and
fallback branches) together with the list of attempted uploads. -/
def upload_to_s3 : LocalPath → Option String → Option Bool × List (String × Bool)
  | .file base ok, bucket_subfolder =>
    (some ok, [(object_name_for bucket_subfolder base, ok)])
  | .directory files, bucket_subfolder => (none, uploadWalk bucket_subfolder files)
  | .other, _ => (none, [])

/-- The job-status polling `while` loop, run over the sequence `seq` of
statuses that successive `get_model_invocation_job` calls return (`seq i` is
the status observed by call `i`), with explicit fuel for totality: `none`
means the loop is still running after `fuel` observations. On a terminal
status the loop stops (`Failed` falls out of the `while` condition,
`Completed` hits `break`); otherwise the loop sleeps 300 seconds and polls
again. Returns the final status and the total seconds slept. -/
def poll_job (seq : Nat → String) : Nat → Nat → Option (String × Nat)
  | 0, _ => none
  | fuel + 1, i =>
    if seq i = "Failed" then some (seq i, 0)
    else if seq i = "Completed" then some (seq i, 0)
    else
      match poll_job seq fuel (i + 1) with
      | some (s, slept) => some (s, slept + 300)
      | none => none

/-! ### The output-retrieval cell -/

/-- First-match lookup in an object's member list (Python dicts cannot hold a
duplicate key, so first match is exact). -/
def lookupField : List (String × Json) → String → Option Json
  | [], _ => none
  | (k, v) :: rest, key => if k = key then some v else lookupField rest key

/-- Python `d[key]` on a parsed JSON value: defined for an object holding the
key, a `KeyError`/`TypeError` otherwise. -/
def jget : Json → String → Option Json
  | .jobj fields, key => lookupField fields key
  | _, _ => none

/-- Python `l[i]` on a parsed JSON value: defined for an array long enough. -/
def jindex : Json → Nat → Option Json
  | .jarr es, n => es.get? n
  | _, _ => none

/-- The accesses `data['modelOutput'][...]` of the retrieval cell: generated
text (`content[0]['text']`), usage counters, model name and stop reason. -/
def modelOutputFields (mo : Json) : Option (Json × Json × Json × Json × Json) :=
  (jget mo "content").bind fun content =>
  (jindex content 0).bind fun c0 =>
  (jget c0 "text").bind fun text =>
  (jget mo "usage").bind fun usage =>
  (jget usage "input_tokens").bind fun itok =>
  (jget usage "output_tokens").bind fun otok =>
  (jget mo "model").bind fun mdl =>
  (jget mo "stop_reason").bind fun why =>
  some (text, itok, otok, mdl, why)

/-- The accesses `data['modelInput'][...]` of the retrieval cell: the four
generation parameters. -/
def modelInputFields (mi : Json) : Option (Json × Json × Json × Json) :=
  (jget mi "max_tokens").bind fun mt =>
  (jget mi "temperature").bind fun temp =>
  (jget mi "top_p").bind fun tp =>
  (jget mi "top_k").bind fun tk =>
  some (mt, temp, tp, tk)

/-- The `observability` sub-dict of an `output_entry`. -/
def observabilityJson (itok otok mdl why rid mt temp tp tk : Json) : Json :=
  Json.jobj
    [("input_tokens", itok),
     ("output_tokens", otok),
     ("model", mdl),
     ("stop_reason", why),
     ("request_id", rid),
     ("max_tokens", mt),
     ("temperature", temp),
     ("top_p", tp),
     ("top_k", tk)]

/-- The `output_entry` dict the retrieval cell builds from one decoded line
(`data`): any missing field raises, which the surrounding `try` catches. -/
def output_entry_of (data : Json) : Option Json :=
  (jget data "recordId").bind fun rid =>
  (jget data "modelOutput").bind fun mo =>
  (modelOutputFields mo).bind fun out5 =>
  (jget data "modelInput").bind fun mi =>
  (modelInputFields mi).bind fun in4 =>
  some (Json.jobj
    [("request_id", rid),
     ("output_text", out5.1),
     ("observability",
      observabilityJson out5.2.1 out5.2.2.1 out5.2.2.2.1 out5.2.2.2.2 rid
        in4.1 in4.2.1 in4.2.2.1 in4.2.2.2)])

/-- One line of the retrieval loop: `json.loads(line)` then the
`output_entry` construction; `none` when either raises. -/
def parseLine (line : List Char) : Option Json :=
  (loads (String.mk line)).bind output_entry_of

/-- The `for line in json_data.splitlines()` loop under `try`: entries are
appended to the accumulator; the first failing line aborts the loop, the
`except` arm prints, and `output_data` keeps what was already appended. The
boolean reports whether an exception was caught. -/
def retrieveAux : List (List Char) → List Json → List Json × Bool
  | [], acc => (acc, false)
  | line :: rest, acc =>
    match parseLine line with
    | some entry => retrieveAux rest (acc ++ [entry])
    | none => (acc, true)

/-- The retrieval cell's processing of the fetched output file: split into
lines and run the entry loop on an empty `output_data`. -/
def retrieve_output_data (json_data : List Char) : List Json × Bool :=
  retrieveAux (splitlines json_data) []

/-- The object key the retrieval cell reads:
`{model_input_summary_prefix}/{output_prefix}/{job_id}/` followed by
`{filename}.out`. -/
def output_object_key (summaryPfx outPfx job_id filename : String) : String :=
  summaryPfx ++ "/" ++ outPfx ++ "/" ++ job_id ++ "/" ++ filename ++ ".out"

/-- All S3 keys the retrieval cell fetches: exactly one `get_object` call, on
the per-record output file. -/
def retrieval_get_keys (summaryPfx outPfx job_id filename : String) : List String :=
  [output_object_key summaryPfx outPfx job_id filename]

/-! ### Shapes of the service's output lines -/

/-- The payload of one line of the service-written output file, as the
retrieval cell reads it: record id, generated text, the two usage counters,
model and stop reason, and the four originating generation parameters.
Counters and parameters are decimal number literals. -/
structure OutputLineData where
  recId : String
  outText : String
  inTok : String
  outTok : String
  modelName : String
  stopReason : String
  maxTok : String
  temperatureLit : String
  topP : String
  topK : String

/-- The JSON object of one service output line carrying `d`: the input
record's `recordId` and `modelInput` mirrored back, plus the `modelOutput`
with content, usage, model and stop reason. -/
def outputLineJson (d : OutputLineData) : Json :=
  .jobj
    [("recordId", .jstr d.recId),
     ("modelInput", .jobj
       [("max_tokens", .jnum d.maxTok),
        ("temperature", .jnum d.temperatureLit),
        ("top_p", .jnum d.topP),
        ("top_k", .jnum d.topK)]),
     ("modelOutput", .jobj
       [("model", .jstr d.modelName),
        ("stop_reason", .jstr d.stopReason),
        ("usage", .jobj
          [("input_tokens", .jnum d.inTok),
           ("output_tokens", .jnum d.outTok)]),
        ("content", .jarr [.jobj [("type", .jstr "text"), ("text", .jstr d.outText)]])])]

/-- Every number literal of `d` is an acceptable number token. -/
def outputLineDataOk (d : OutputLineData) : Bool :=
  numLitOk d.inTok && numLitOk d.outTok && numLitOk d.maxTok &&
    numLitOk d.temperatureLit && numLitOk d.topP && numLitOk d.topK

/-- The `output_entry` the retrieval cell builds from the line carrying `d`. -/
def expectedEntry (d : OutputLineData) : Json :=
  .jobj
    [("request_id", .jstr d.recId),
     ("output_text", .jstr d.outText),
     ("observability",
      observabilityJson (.jnum d.inTok) (.jnum d.outTok) (.jstr d.modelName)
        (.jstr d.stopReason) (.jstr d.recId) (.jnum d.maxTok)
        (.jnum d.temperatureLit) (.jnum d.topP) (.jnum d.topK))]

/-- A concrete, fully well-formed service output line used as test data. -/
def sampleLineData : OutputLineData :=
  { recId := "CALL01", outText := "hi", inTok := "5", outTok := "7",
    modelName := "claude", stopReason := "end_turn", maxTok := "300",
    temperatureLit := "0.1", topP := "0.1", topK := "100" }

/-- A concrete output file whose first line is valid and whose second line is
not JSON at all. -/
def sampleBadFile : List Char :=
  write_jsonl [outputLineJson sampleLineData] ++ ('n' :: 'o' :: 't' :: ' ' :: 'j' :: 's' :: 'o' :: 'n' :: [])

/-! ## Theorems

### The job poller -/

/-- The run reaching the first terminal observation: `n` non-terminal
statuses, each followed by one 300 second sleep, then the terminal one with
no sleep after it. -/
theorem poll_job_reaches_terminal (seq : Nat → String) :
    ∀ n fuel i,
      (∀ m, m < n → seq (i + m) ≠ "Completed" ∧ seq (i + m) ≠ "Failed") →
      (seq (i + n) = "Completed" ∨ seq (i + n) = "Failed") → n < fuel →
      poll_job seq fuel i = some (seq (i + n), 300 * n) := by
  intro n
  induction n with
  | zero =>
    intro fuel i _ hterm hf
    match fuel, hf with
    | fuel + 1, _ =>
      rcases hterm with hc | hfl
      · simp only [Nat.add_zero] at hc
        simp [poll_job, hc]
      · simp only [Nat.add_zero] at hfl
        simp [poll_job, hfl]
  | succ n ih =>
    intro fuel i hpre hterm hf
    cases fuel with
    | zero => omega
    | succ fuel =>
      have h0 := hpre 0 (Nat.succ_pos n)
      simp only [Nat.add_zero] at h0
      have htail : ∀ m, m < n → seq (i + 1 + m) ≠ "Completed" ∧ seq (i + 1 + m) ≠ "Failed" := by
        intro m hm
        have := hpre (m + 1) (by omega)
        simpa [Nat.add_assoc, Nat.add_comm 1 m] using this
      have hterm2 : seq (i + 1 + n) = "Completed" ∨ seq (i + 1 + n) = "Failed" := by
        have : i + 1 + n = i + (n + 1) := by omega
        rw [this]; exact hterm
      have hrec := ih fuel (i + 1) htail hterm2 (by omega)
      have hidx : i + 1 + n = i + (n + 1) := by omega
      simp only [poll_job, if_neg h0.2, if_neg h0.1, hrec, hidx, Nat.mul_succ]

/-- A status sequence with no terminal entry keeps the loop running past any
fuel bound. -/
theorem poll_job_never_terminal (seq : Nat → String)
    (h : ∀ n, seq n ≠ "Completed" ∧ seq n ≠ "Failed") :
    ∀ fuel i, poll_job seq fuel i = none := by
  intro fuel
  induction fuel with
  | zero => intro i; rfl
  | succ fuel ih =>
    intro i
    simp [poll_job, (h i).1, (h i).2, ih (i + 1)]

/-- C1. The job-poller loop exits only on a terminal status: whenever the
polling run stops and reports a final status, that status is `Completed` or
`Failed`; a run over observations that are all non-terminal never stops,
so no non-terminal status is ever reported as final. -/
theorem poll_job_final_status_terminal (seq : Nat → String) (fuel i : Nat)
    (s : String) (slept : Nat) (h : poll_job seq fuel i = some (s, slept)) :
    s = "Completed" ∨ s = "Failed" := by
  induction fuel generalizing i s slept with
  | zero => exact absurd h (by simp [poll_job])
  | succ fuel ih =>
    by_cases hfl : seq i = "Failed"
    · right
      simp only [poll_job, if_pos hfl] at h
      cases h; exact hfl
    · by_cases hc : seq i = "Completed"
      · left
        simp only [poll_job, if_neg hfl, if_pos hc] at h
        cases h; exact hc
      · simp only [poll_job, if_neg hfl, if_neg hc] at h
        rcases hrec : poll_job seq fuel (i + 1) with _ | ⟨s2, t2⟩ <;> rw [hrec] at h
        · exact absurd h (by simp)
        · simp only [Option.some.injEq, Prod.mk.injEq] at h
          rcases h with ⟨hs, _⟩
          subst hs
          exact ih (i + 1) s2 t2 hrec

/-- Witness for C1: a run that observes `Completed` immediately stops with
that terminal status. -/
theorem poll_job_final_status_terminal_witness :
    "Completed" = "Completed" ∨ "Completed" = "Failed" :=
  poll_job_final_status_terminal (fun _ => "Completed") 1 0 "Completed" 0 (by rfl)

/-- C2. Each non-terminal observation is followed by exactly one 300 second
sleep and a terminal observation by none: a run whose first terminal status
arrives at observation `n` sleeps `300 * n` seconds in total and stops there,
for every sufficient fuel; and with no deadline or retry ceiling, a sequence
that never shows a terminal status leaves the loop running past every fuel
bound. -/
theorem poll_job_sleep_and_no_ceiling (seq : Nat → String) :
    (∀ n fuel, (∀ m, m < n → seq m ≠ "Completed" ∧ seq m ≠ "Failed") →
       (seq n = "Completed" ∨ seq n = "Failed") → n < fuel →
       poll_job seq fuel 0 = some (seq n, 300 * n))
    ∧ ((∀ n, seq n ≠ "Completed" ∧ seq n ≠ "Failed") →
       ∀ fuel, poll_job seq fuel 0 = none) := by
  constructor
  · intro n fuel hpre hterm hf
    have := poll_job_reaches_terminal seq n fuel 0
      (by intro m hm; simpa using hpre m hm) (by simpa using hterm) hf
    simpa using this
  · intro h fuel
    exact poll_job_never_terminal seq h fuel 0

/-- Witness for C2: with `InProgress, InProgress, Completed` the loop stops
at the third observation having slept 600 seconds; with a constant
`InProgress` sequence it is still running after 7 observations. -/
theorem poll_job_sleep_and_no_ceiling_witness :
    poll_job (fun k => if k < 2 then "InProgress" else "Completed") 3 0
      = some ("Completed", 600)
    ∧ poll_job (fun _ => "InProgress") 7 0 = none := by
  constructor
  · have h := (poll_job_sleep_and_no_ceiling
        (fun k => if k < 2 then "InProgress" else "Completed")).1 2 3
      (by decide) (by decide) (by decide)
    simpa using h
  · exact (poll_job_sleep_and_no_ceiling (fun _ => "InProgress")).2
      (fun n => by exact ⟨by decide, by decide⟩) 7

/-! ### The input collector -/

/-- Pointwise-equal index functions give equal `mapIdx` results. -/
theorem mapIdx_ext {α β : Type} (l : List α) :
    ∀ f g : Nat → α → β, (∀ i a, f i a = g i a) → l.mapIdx f = l.mapIdx g := by
  induction l with
  | nil => intro f g _; rfl
  | cons a l ih =>
    intro f g h
    rw [List.mapIdx_cons, List.mapIdx_cons, h 0 a,
      ih (fun i => f (i + 1)) (fun i => g (i + 1)) (fun i b => h (i + 1) b)]

/-- The loop of `prepare_model_inputs` over keys that all read successfully:
one record per key, in listing order, each stamped with the clock value of
its own iteration. -/
theorem prepareAux_all_reads_ok {ε : Type} (getObject : String → Except ε String)
    (clock : Nat → Int) (body : String → String) :
    ∀ (keys : List String) (i : Nat), (∀ k ∈ keys, getObject k = .ok (body k)) →
      prepareAux getObject clock keys i
        = .ok (keys.mapIdx fun j k => modelInputRecord (toString (clock (i + j))) (body k)) := by
  intro keys
  induction keys with
  | nil => intro i _; rfl
  | cons key keys ih =>
    intro i h
    have hkey := h key (List.mem_cons_self key keys)
    have htail := ih (i + 1) (fun k hk => h k (List.mem_cons_of_mem key hk))
    simp only [prepareAux, hkey, htail, List.mapIdx_cons, Nat.add_zero]
    rw [mapIdx_ext keys (fun j k => modelInputRecord (toString (clock (i + 1 + j))) (body k))
      (fun j k => modelInputRecord (toString (clock (i + (j + 1)))) (body k))
      (fun j k => by
        show modelInputRecord (toString (clock (i + 1 + j))) (body k)
            = modelInputRecord (toString (clock (i + (j + 1)))) (body k)
        rw [show i + 1 + j = i + (j + 1) from by omega])]

/-- The loop of `prepare_model_inputs` aborts with the read error whenever
some listed key fails to read. -/
theorem prepareAux_read_error {ε : Type} (getObject : String → Except ε String)
    (clock : Nat → Int) :
    ∀ (keys : List String) (i : Nat) (k : String) (e : ε), k ∈ keys →
      getObject k = .error e →
      ∃ err, prepareAux getObject clock keys i = .error err := by
  intro keys
  induction keys with
  | nil => intro i k e hk; exact absurd hk (List.not_mem_nil k)
  | cons key keys ih =>
    intro i k e hk he
    rcases List.mem_cons.mp hk with rfl | htail
    · exact ⟨e, by simp [prepareAux, he]⟩
    · cases hkey : getObject key with
      | error err => exact ⟨err, by simp [prepareAux, hkey]⟩
      | ok content =>
        obtain ⟨err, herr⟩ := ih (i + 1) k e htail he
        exact ⟨err, by simp [prepareAux, hkey, herr]⟩

/-- C3 (failing input): two source objects read in the same wall-clock
second. The collector derives each record identifier from
`int(datetime.now().timestamp())`, so both records of the batch get the
identifier `"1718000000"`: the identifiers are not pairwise distinct. -/
theorem prepare_model_inputs_duplicate_ids_same_second :
    (prepare_model_inputs (ε := Unit) (some ["transcript-a.txt", "transcript-b.txt"])
        (fun _ => .ok "hello") (fun _ => 1718000000)).map
        (fun records => records.map fun r => jget r "recordId")
      = .ok [some (Json.jstr "1718000000"), some (Json.jstr "1718000000")] := by
  rfl

/-- C5. If some listed source object fails to read, `prepare_model_inputs`
propagates the error: the whole call evaluates to that exception and no
(partial) batch is returned. -/
theorem prepare_model_inputs_fail_fast {ε : Type} (contents : List String)
    (getObject : String → Except ε String) (clock : Nat → Int) (k : String) (e : ε)
    (hk : k ∈ contents) (he : getObject k = .error e) :
    ∃ err, prepare_model_inputs (some contents) getObject clock = .error err := by
  exact prepareAux_read_error getObject clock contents 0 k e hk he

/-- Witness for C5: one listed object whose read raises. -/
theorem prepare_model_inputs_fail_fast_witness :
    ∃ err, prepare_model_inputs (ε := Unit) (some ["gone.txt"])
        (fun _ => .error ()) (fun _ => 0) = .error err :=
  prepare_model_inputs_fail_fast ["gone.txt"] (fun _ => .error ()) (fun _ => 0)
    "gone.txt" () (List.mem_cons_self "gone.txt" []) rfl

/-- C6. When every listed object reads successfully, the collector returns
one record per object, in listing order: record `j` is
`{"recordId": str(clock j), "modelInput": body}` where the body embeds the
fixed instruction template concatenated with that object's text and carries
`max_tokens` 300, `temperature` 0.1, `top_p` 0.1 and `top_k` 100 verbatim. -/
theorem prepare_model_inputs_success {ε : Type} (contents : List String)
    (body : String → String) (getObject : String → Except ε String) (clock : Nat → Int)
    (hread : ∀ k ∈ contents, getObject k = .ok (body k)) :
    prepare_model_inputs (some contents) getObject clock
      = .ok (contents.mapIdx fun j k =>
          Json.jobj
            [("recordId", Json.jstr (toString (clock j))),
             ("modelInput", Json.jobj
               [("anthropic_version", Json.jstr "bedrock-2023-05-31"),
                ("messages", Json.jarr [Json.jobj
                  [("role", Json.jstr "user"),
                   ("content", Json.jarr [Json.jobj
                     [("type", Json.jstr "text"),
                      ("text", Json.jstr (promptTemplate ++ body k))]])]]),
                ("max_tokens", Json.jnum "300"),
                ("temperature", Json.jnum "0.1"),
                ("top_p", Json.jnum "0.1"),
                ("top_k", Json.jnum "100")])]) := by
  rw [prepare_model_inputs, Option.getD_some,
    prepareAux_all_reads_ok getObject clock body contents 0 hread]
  exact congrArg _ (mapIdx_ext contents _ _ (fun j k => by
    rw [show (0 : Nat) + j = j from by omega]; rfl))

/-- Witness for C6: one object holding `"hi"`, read at clock value 5. -/
theorem prepare_model_inputs_success_witness :
    prepare_model_inputs (ε := Unit) (some ["a.txt"]) (fun _ => .ok "hi") (fun _ => 5)
      = .ok (["a.txt"].mapIdx fun j _k =>
          Json.jobj
            [("recordId", Json.jstr (toString ((fun _ => (5 : Int)) j))),
             ("modelInput", Json.jobj
               [("anthropic_version", Json.jstr "bedrock-2023-05-31"),
                ("messages", Json.jarr [Json.jobj
                  [("role", Json.jstr "user"),
                   ("content", Json.jarr [Json.jobj
                     [("type", Json.jstr "text"),
                      ("text", Json.jstr (promptTemplate ++ "hi"))]])]]),
                ("max_tokens", Json.jnum "300"),
                ("temperature", Json.jnum "0.1"),
                ("top_p", Json.jnum "0.1"),
                ("top_k", Json.jnum "100")])]) :=
  prepare_model_inputs_success ["a.txt"] (fun _ => "hi") (fun _ => .ok "hi")
    (fun _ => 5) (fun _ _ => rfl)

/-- C9. A listing response with no `Contents` entry makes
`prepare_model_inputs` return the empty batch rather than raise, and
`write_jsonl` then serializes it to an empty file. -/
theorem prepare_model_inputs_no_contents {ε : Type}
    (getObject : String → Except ε String) (clock : Nat → Int) :
    prepare_model_inputs none getObject clock = .ok [] ∧ write_jsonl [] = [] :=
  ⟨rfl, rfl⟩

/-! ### upload_to_s3 -/

/-- C10. The return value of `upload_to_s3` distinguishes outcomes only for
a single file: `some ok` reporting that upload's success; a directory walk
returns `none` whatever the per-file outcomes (they are not observable in
the return value) while still attempting every walked file; a path that is
neither file nor directory returns `none` and uploads nothing. -/
theorem upload_to_s3_return_value :
    (∀ base ok sub, (upload_to_s3 (.file base ok) sub).1 = some ok)
    ∧ (∀ files sub, (upload_to_s3 (.directory files) sub).1 = none)
    ∧ (∀ files1 files2 sub,
        (upload_to_s3 (.directory files1) sub).1 = (upload_to_s3 (.directory files2) sub).1)
    ∧ (∀ files sub, (upload_to_s3 (.directory files) sub).2
        = files.map fun f => (object_name_for sub f.1, f.2))
    ∧ (∀ sub, upload_to_s3 .other sub = (none, [])) := by
  refine ⟨fun _ _ _ => rfl, fun _ _ => rfl, fun _ _ _ => rfl, ?_, fun _ => rfl⟩
  intro files sub
  induction files with
  | nil => rfl
  | cons f fs ih => simp [upload_to_s3, uploadWalk] at ih ⊢; exact ih

/-! ### Round trip of the serializer and the parser -/

/-- `dropWs` leaves a list alone when its first character is not whitespace. -/
theorem dropWs_no_ws {c : Char} (t : List Char) (h : isWsChar c = false) :
    dropWs (c :: t) = c :: t := by
  simp [dropWs, h]

/-- One space in front is consumed by `dropWs`. -/
theorem dropWs_space (t : List Char) : dropWs (' ' :: t) = dropWs t := by
  simp [dropWs, isWsChar]

/-- `hexDigitVal` inverts `hexDigitChar` on nibble values. -/
theorem hexDigitVal_hexDigitChar {n : Nat} (h : n < 16) :
    hexDigitVal (hexDigitChar n) = some n := by
  interval_cases n <;> decide

/-- A number-character run followed by a non-extending remainder is taken
whole by `takeWhile` and dropped whole by `dropWhile`. -/
theorem takeWhile_num_run (l r : List Char) (hl : ∀ c ∈ l, isNumChar c = true)
    (hr : stopsNum r = true) :
    (l ++ r).takeWhile isNumChar = l ∧ (l ++ r).dropWhile isNumChar = r := by
  induction l with
  | nil =>
    cases r with
    | nil => exact ⟨rfl, rfl⟩
    | cons c t =>
      simp only [stopsNum, Bool.not_eq_true'] at hr
      simp [List.takeWhile_cons, List.dropWhile_cons, hr]
  | cons c l ih =>
    have hc := hl c (List.mem_cons_self c l)
    have := ih fun d hd => hl d (List.mem_cons_of_mem c hd)
    simp [List.takeWhile_cons, List.dropWhile_cons, hc, this.1, this.2]

/-- Scanning the escape of one character prepends exactly that character. -/
theorem scanStr_escChar (c : Char) (tail : List Char) :
    scanStr (escChar c ++ tail) = (scanStr tail).map fun p => (c :: p.1, p.2) := by
  by_cases h1 : c = '"'
  · subst h1; cases htail : scanStr tail <;> simp [escChar, scanStr, escShort, htail]
  · by_cases h2 : c = '\\'
    · subst h2; cases htail : scanStr tail <;> simp [escChar, scanStr, escShort, htail]
    · by_cases h3 : c = '\n'
      · subst h3; cases htail : scanStr tail <;> simp [escChar, scanStr, escShort, htail]
      · by_cases h4 : c = '\r'
        · subst h4; cases htail : scanStr tail <;> simp [escChar, scanStr, escShort, htail]
        · by_cases h5 : c = '\t'
          · subst h5; cases htail : scanStr tail <;> simp [escChar, scanStr, escShort, htail]
          · by_cases h6 : c = Char.ofNat 8
            · subst h6; cases htail : scanStr tail <;> simp [escChar, scanStr, escShort, htail]
            · by_cases h7 : c = Char.ofNat 12
              · subst h7; cases htail : scanStr tail <;> simp [escChar, scanStr, escShort, htail]
              · by_cases h8 : c.toNat < 32
                · have e1 : hexDigitVal '0' = some 0 := by decide
                  have e2 := hexDigitVal_hexDigitChar (n := c.toNat / 16) (by omega)
                  have e3 := hexDigitVal_hexDigitChar (n := c.toNat % 16) (by omega)
                  have hq : hexQuad '0' '0' (hexDigitChar (c.toNat / 16))
                      (hexDigitChar (c.toNat % 16)) = some c.toNat := by
                    simp only [hexQuad, e1, e2, e3]
                    congr 1
                    omega
                  simp only [escChar, if_neg h1, if_neg h2, if_neg h3, if_neg h4,
                    if_neg h5, if_neg h6, if_neg h7, if_pos h8, List.cons_append,
                    List.nil_append]
                  rw [scanStr.eq_def]
                  simp only [if_neg (show ¬('\\' = '"') by decide), if_pos rfl, hq]
                  cases htail : scanStr tail <;> simp [Char.ofNat_toNat]
                · simp only [escChar, if_neg h1, if_neg h2, if_neg h3, if_neg h4,
                    if_neg h5, if_neg h6, if_neg h7, if_neg h8, List.cons_append,
                    List.nil_append]
                  rw [scanStr.eq_def]
                  simp only [if_neg h1, if_neg h2]
                  cases htail : scanStr tail <;> simp [htail]

/-- Scanning an escaped string body stops at the closing quote and recovers
the original characters. -/
theorem scanStr_escStr (cs : List Char) :
    ∀ rest, scanStr (escStr cs ++ '"' :: rest) = some (cs, rest) := by
  induction cs with
  | nil =>
    intro rest
    rw [show escStr [] ++ '"' :: rest = '"' :: rest by simp [escStr]]
    rw [scanStr.eq_def]
    simp
  | cons c cs ih =>
    intro rest
    have h : escStr (c :: cs) = escChar c ++ escStr cs := by
      simp [escStr]
    rw [h, List.append_assoc, scanStr_escChar, ih rest]
    rfl


/-- A number-start character is not whitespace and is none of the parser's
dispatch or closing-delimiter characters. -/
theorem numStart_facts {c : Char} (h : isNumStart c = true) :
    isWsChar c = false ∧ c ≠ '"' ∧ c ≠ '[' ∧ c ≠ braceL ∧ c ≠ 'n' ∧ c ≠ 't' ∧
      c ≠ 'f' ∧ c ≠ ']' ∧ c ≠ braceR := by
  have hcases : c = '-' ∨ isDigitChar c = true := by
    simpa [isNumStart, Bool.or_eq_true, decide_eq_true_eq] using h
  rcases hcases with rfl | hd
  · refine ⟨by decide, by decide, by decide, by decide, by decide, by decide,
      by decide, by decide, by decide⟩
  · have hne : ∀ x : Char, isDigitChar x = false → c ≠ x := by
      intro x hx heq
      rw [heq, hx] at hd
      cases hd
    refine ⟨?_, hne _ (by decide), hne _ (by decide), hne _ (by decide),
      hne _ (by decide), hne _ (by decide), hne _ (by decide), hne _ (by decide),
      hne _ (by decide)⟩
    simp [isWsChar, hne ' ' (by decide), hne '\t' (by decide),
      hne '\n' (by decide), hne '\r' (by decide)]

/-- A serialized well-formed value never begins with whitespace nor with a
closing delimiter. -/
theorem dumpsVal_head (j : Json) (h : jsonWF j = true) :
    ∃ c t, dumpsVal j = c :: t ∧ isWsChar c = false ∧ c ≠ ']' ∧ c ≠ braceR := by
  cases j with
  | jnull => exact ⟨'n', _, rfl, by decide, by decide, by decide⟩
  | jbool b =>
    cases b with
    | false => exact ⟨'f', _, rfl, by decide, by decide, by decide⟩
    | true => exact ⟨'t', _, rfl, by decide, by decide, by decide⟩
  | jnum lit =>
    cases hdata : lit.data with
    | nil =>
      rw [jsonWF, numLitOk, hdata] at h
      cases h
    | cons c cs =>
      rw [jsonWF, numLitOk, hdata] at h
      obtain ⟨hstart, -, -⟩ :
          isNumStart c = true ∧ isNumChar c = true ∧ ∀ x ∈ cs, isNumChar x = true := by
        simpa using h
      obtain ⟨hws, _, _, _, _, _, _, hbk, hbr⟩ := numStart_facts hstart
      exact ⟨c, cs, by simp [dumpsVal, hdata], hws, hbk, hbr⟩
  | jstr s => exact ⟨'"', _, rfl, by decide, by decide, by decide⟩
  | jarr es => exact ⟨'[', _, rfl, by decide, by decide, by decide⟩
  | jobj fs => exact ⟨braceL, _, rfl, by decide, by decide, by decide⟩

/-- `dropWs` leaves any serialized well-formed value alone. -/
theorem dropWs_dumpsVal (j : Json) (r : List Char) (h : jsonWF j = true) :
    dropWs (dumpsVal j ++ r) = dumpsVal j ++ r := by
  obtain ⟨c, t, hhead, hws, _, _⟩ := dumpsVal_head j h
  rw [hhead, List.cons_append, dropWs_no_ws _ hws]

/-- `dropWs` leaves a serialized nonempty element list alone. -/
theorem dropWs_dumpsElems (x : Json) (xs : List Json) (r : List Char)
    (h : jsonWF x = true) :
    dropWs (dumpsElems (x :: xs) ++ r) = dumpsElems (x :: xs) ++ r := by
  rw [show dumpsElems (x :: xs) = dumpsVal x ++ dumpsMoreElems xs from rfl,
    List.append_assoc, dropWs_dumpsVal x _ h, ← List.append_assoc]

/-- `dropWs` leaves a serialized nonempty member list alone. -/
theorem dropWs_dumpsFields (k : String) (v : Json) (fs : List (String × Json))
    (r : List Char) :
    dropWs (dumpsFields ((k, v) :: fs) ++ r) = dumpsFields ((k, v) :: fs) ++ r := by
  rw [show dumpsFields ((k, v) :: fs)
      = '"' :: (escStr k.data ++ ['"'] ++ (':' :: ' ' :: (dumpsVal v ++ dumpsMoreFields fs)))
    from rfl]
  rw [List.cons_append, dropWs_no_ws _ (by decide)]

/-- The parser reads back exactly a serialized number literal. -/
theorem parseVal_numLit (lit : String) (cs rest : List Char) (fuel : Nat)
    (hwf : numLitOk lit = true) (hcs : dropWs cs = lit.data ++ rest)
    (hstop : stopsNum rest = true) :
    parseVal (fuel + 1) cs = some (.jnum lit, rest) := by
  cases hdata : lit.data with
  | nil => rw [numLitOk, hdata] at hwf; cases hwf
  | cons c cs2 =>
    rw [numLitOk, hdata] at hwf
    obtain ⟨hstart, hc1, hrest⟩ :
        isNumStart c = true ∧ isNumChar c = true ∧ ∀ x ∈ cs2, isNumChar x = true := by
      simpa using hwf
    obtain ⟨hws, hq, hbk, hbl, hn, ht, hf, _, _⟩ := numStart_facts hstart
    have hrun := takeWhile_num_run (c :: cs2) rest
      (fun d hd => by
        rcases List.mem_cons.mp hd with rfl | hmem
        · exact hc1
        · exact hrest d hmem) hstop
    rw [hdata] at hcs
    simp only [parseVal, hcs, List.cons_append]
    rw [if_neg hq, if_neg hbk, if_neg hbl, if_neg hn, if_neg ht, if_neg hf,
      if_pos hstart]
    rw [show c :: (cs2 ++ rest) = (c :: cs2) ++ rest from rfl, hrun.1, hrun.2,
      ← hdata]


mutual

/-- Parsing inverts serialization for any well-formed value, as long as the
remainder cannot extend a number token and the fuel covers the serialized
length. -/
theorem parse_dumps_val : ∀ (j : Json) (fuel : Nat) (cs rest : List Char),
    jsonWF j = true → dropWs cs = dumpsVal j ++ rest →
    (dumpsVal j).length < fuel → stopsNum rest = true →
    parseVal fuel cs = some (j, rest)
  | .jnull, fuel, cs, rest, _, hcs, hfuel, _ => by
    cases fuel with
    | zero => exact absurd hfuel (by omega)
    | succ f =>
      simp only [dumpsVal] at hcs
      simp only [parseVal, hcs, List.cons_append, List.nil_append]
      simp [braceL]
  | .jbool true, fuel, cs, rest, _, hcs, hfuel, _ => by
    cases fuel with
    | zero => exact absurd hfuel (by omega)
    | succ f =>
      simp only [dumpsVal] at hcs
      simp only [parseVal, hcs, List.cons_append, List.nil_append]
      simp [braceL]
  | .jbool false, fuel, cs, rest, _, hcs, hfuel, _ => by
    cases fuel with
    | zero => exact absurd hfuel (by omega)
    | succ f =>
      simp only [dumpsVal] at hcs
      simp only [parseVal, hcs, List.cons_append, List.nil_append]
      simp [braceL]
  | .jnum lit, fuel, cs, rest, hwf, hcs, hfuel, hstop => by
    cases fuel with
    | zero => exact absurd hfuel (by omega)
    | succ f =>
      simp only [jsonWF] at hwf
      simp only [dumpsVal] at hcs
      exact parseVal_numLit lit cs rest f hwf hcs hstop
  | .jstr s, fuel, cs, rest, _, hcs, hfuel, _ => by
    cases fuel with
    | zero => exact absurd hfuel (by omega)
    | succ f =>
      have hcs2 : dropWs cs = '"' :: (escStr s.data ++ '"' :: rest) := by
        rw [hcs]; simp [dumpsVal, dumpsStr, List.append_assoc]
      simp only [parseVal, hcs2, if_pos rfl, scanStr_escStr]
      rfl
  | .jarr [], fuel, cs, rest, _, hcs, hfuel, _ => by
    cases fuel with
    | zero => exact absurd hfuel (by omega)
    | succ f =>
      have hcs2 : dropWs cs = '[' :: (']' :: rest) := by
        rw [hcs]; simp [dumpsVal, dumpsElems]
      simp only [parseVal, hcs2]
      rw [dropWs_no_ws _ (by decide : isWsChar ']' = false)]
      simp
  | .jarr (e :: es), fuel, cs, rest, hwf, hcs, hfuel, _ => by
    cases fuel with
    | zero => exact absurd hfuel (by omega)
    | succ f =>
      have hwfl : jsonWFList (e :: es) = true := by simpa [jsonWF] using hwf
      have hwfe : jsonWF e = true := by
        have := hwfl
        simp only [jsonWFList, Bool.and_eq_true] at this
        exact this.1
      obtain ⟨c0, t0, hhead, hc0ws, hc0br, _⟩ := dumpsVal_head e hwfe
      have hcs2 : dropWs cs = '[' :: (dumpsElems (e :: es) ++ ']' :: rest) := by
        rw [hcs]; simp [dumpsVal, List.append_assoc]
      have hexp : dumpsElems (e :: es) ++ ']' :: rest
          = c0 :: (t0 ++ (dumpsMoreElems es ++ ']' :: rest)) := by
        simp [dumpsElems, hhead, List.append_assoc]
      have hfe : (dumpsElems (e :: es)).length + 1 < f := by
        simp only [dumpsVal, List.length_cons, List.length_append,
          List.length_nil] at hfuel
        omega
      have hitems := parse_dumps_items e es f
        (c0 :: (t0 ++ (dumpsMoreElems es ++ ']' :: rest))) rest hwfl
        (by rw [dropWs_no_ws _ hc0ws, ← hexp]) hfe
      simp only [parseVal, hcs2]
      rw [show dropWs (dumpsElems (e :: es) ++ ']' :: rest)
          = c0 :: (t0 ++ (dumpsMoreElems es ++ ']' :: rest)) from by
        rw [hexp, dropWs_no_ws _ hc0ws]]
      simp [if_neg hc0br, hitems]
  | .jobj [], fuel, cs, rest, _, hcs, hfuel, _ => by
    cases fuel with
    | zero => exact absurd hfuel (by omega)
    | succ f =>
      have hcs2 : dropWs cs = braceL :: (braceR :: rest) := by
        rw [hcs]; simp [dumpsVal, dumpsFields]
      simp only [parseVal, hcs2]
      rw [dropWs_no_ws _ (by decide : isWsChar braceR = false)]
      simp only [if_neg (by decide : ¬(braceL = '"')),
        if_neg (by decide : ¬(braceL = '['))]
      simp
  | .jobj ((k, v) :: fs), fuel, cs, rest, hwf, hcs, hfuel, _ => by
    cases fuel with
    | zero => exact absurd hfuel (by omega)
    | succ f =>
      have hwff : jsonWFFields ((k, v) :: fs) = true := by simpa [jsonWF] using hwf
      have hcs2 : dropWs cs = braceL :: (dumpsFields ((k, v) :: fs) ++ braceR :: rest) := by
        rw [hcs]; simp [dumpsVal, List.append_assoc]
      have hexp : dumpsFields ((k, v) :: fs) ++ braceR :: rest
          = '"' :: ((escStr k.data ++ '"' :: (':' :: ' ' ::
              (dumpsVal v ++ dumpsMoreFields fs))) ++ braceR :: rest) := by
        simp [dumpsFields, dumpsStr, List.append_assoc]
      have hff : (dumpsFields ((k, v) :: fs)).length + 1 < f := by
        simp only [dumpsVal, List.length_cons, List.length_append,
          List.length_nil] at hfuel
        omega
      have hentries := parse_dumps_entries (k, v) fs f
        ('"' :: ((escStr k.data ++ '"' :: (':' :: ' ' ::
            (dumpsVal v ++ dumpsMoreFields fs))) ++ braceR :: rest)) rest hwff
        (by rw [dropWs_no_ws _ (by decide : isWsChar '"' = false), ← hexp]) hff
      simp only [parseVal, hcs2]
      rw [show dropWs (dumpsFields ((k, v) :: fs) ++ braceR :: rest)
          = '"' :: ((escStr k.data ++ '"' :: (':' :: ' ' ::
              (dumpsVal v ++ dumpsMoreFields fs))) ++ braceR :: rest) from by
        rw [dropWs_dumpsFields k v fs _, hexp]]
      simp only [List.append_assoc, List.cons_append] at hentries
      simp [hentries]
      rw [if_neg (by decide : ¬(braceL = '"')), if_neg (by decide : ¬(braceL = '[')),
        if_neg (by decide : ¬('"' = braceR))]
  termination_by j _ _ _ _ _ _ _ => sizeOf j

/-- Parsing inverts serialization for a nonempty element list followed by the
closing bracket. -/
theorem parse_dumps_items : ∀ (e : Json) (es : List Json) (fuel : Nat)
    (cs rest : List Char),
    jsonWFList (e :: es) = true →
    dropWs cs = dumpsElems (e :: es) ++ ']' :: rest →
    (dumpsElems (e :: es)).length + 1 < fuel →
    parseItems fuel cs = some (e :: es, rest)
  | e, [], fuel, cs, rest, hwf, hcs, hfuel => by
    cases fuel with
    | zero => exact absurd hfuel (by omega)
    | succ f =>
      have hwfe : jsonWF e = true := by
        simp only [jsonWFList, Bool.and_eq_true] at hwf
        exact hwf.1
      have hval := parse_dumps_val e f cs (']' :: rest) hwfe
        (by rw [hcs]; simp [dumpsElems, dumpsMoreElems])
        (by simp only [dumpsElems, dumpsMoreElems, List.append_nil] at hfuel; omega)
        (by simp only [stopsNum]; decide)
      simp only [parseItems, hval]
      rw [dropWs_no_ws _ (by decide : isWsChar ']' = false)]
      simp
  | e, x :: xs, fuel, cs, rest, hwf, hcs, hfuel => by
    cases fuel with
    | zero => exact absurd hfuel (by omega)
    | succ f =>
      have hwfe : jsonWF e = true := by
        simp only [jsonWFList, Bool.and_eq_true] at hwf
        exact hwf.1
      have hwftail : jsonWFList (x :: xs) = true := by
        simp only [jsonWFList, Bool.and_eq_true] at hwf ⊢
        exact hwf.2
      have hwfx : jsonWF x = true := by
        simp only [jsonWFList, Bool.and_eq_true] at hwftail
        exact hwftail.1
      have hstop : stopsNum (dumpsMoreElems (x :: xs) ++ ']' :: rest) = true := by
        rw [show dumpsMoreElems (x :: xs) ++ ']' :: rest
            = ',' :: (' ' :: ((dumpsVal x ++ dumpsMoreElems xs) ++ ']' :: rest)) from by
          simp [dumpsMoreElems, List.append_assoc]]
        simp only [stopsNum]
        decide
      have hval := parse_dumps_val e f cs (dumpsMoreElems (x :: xs) ++ ']' :: rest) hwfe
        (by rw [hcs]; simp [dumpsElems, List.append_assoc])
        (by simp only [dumpsElems, List.length_append] at hfuel; omega)
        hstop
      have hrec := parse_dumps_items x xs f
        (' ' :: ((dumpsVal x ++ dumpsMoreElems xs) ++ ']' :: rest)) rest hwftail
        (by rw [dropWs_space]
            rw [show (dumpsVal x ++ dumpsMoreElems xs) ++ ']' :: rest
                = dumpsElems (x :: xs) ++ ']' :: rest from by simp [dumpsElems]]
            exact dropWs_dumpsElems x xs _ hwfx)
        (by simp only [dumpsElems, dumpsMoreElems, List.length_append,
              List.length_cons] at hfuel ⊢
            omega)
      simp only [parseItems, hval]
      rw [show dropWs (dumpsMoreElems (x :: xs) ++ ']' :: rest)
          = ',' :: (' ' :: ((dumpsVal x ++ dumpsMoreElems xs) ++ ']' :: rest)) from by
        rw [show dumpsMoreElems (x :: xs) ++ ']' :: rest
            = ',' :: (' ' :: ((dumpsVal x ++ dumpsMoreElems xs) ++ ']' :: rest)) from by
          simp [dumpsMoreElems, List.append_assoc]]
        exact dropWs_no_ws _ (by decide)]
      simp only [List.append_assoc] at hrec
      simp [hrec]
  termination_by e es _ _ _ _ _ _ => 1 + sizeOf e + sizeOf es

/-- Parsing inverts serialization for a nonempty member list followed by the
closing brace. -/
theorem parse_dumps_entries : ∀ (kv : String × Json) (fs : List (String × Json))
    (fuel : Nat) (cs rest : List Char),
    jsonWFFields (kv :: fs) = true →
    dropWs cs = dumpsFields (kv :: fs) ++ braceR :: rest →
    (dumpsFields (kv :: fs)).length + 1 < fuel →
    parseEntries fuel cs = some (kv :: fs, rest)
  | (k, v), [], fuel, cs, rest, hwf, hcs, hfuel => by
    cases fuel with
    | zero => exact absurd hfuel (by omega)
    | succ f =>
      have hwfv : jsonWF v = true := by
        simp only [jsonWFFields, Bool.and_eq_true] at hwf
        exact hwf.1
      have hcs2 : dropWs cs
          = '"' :: (escStr k.data ++ '"' :: (':' :: ' ' :: (dumpsVal v ++ braceR :: rest))) := by
        rw [hcs]; simp [dumpsFields, dumpsMoreFields, dumpsStr, List.append_assoc]
      have hval := parse_dumps_val v f (' ' :: (dumpsVal v ++ braceR :: rest))
        (braceR :: rest) hwfv
        (by rw [dropWs_space]; exact dropWs_dumpsVal v _ hwfv)
        (by simp only [dumpsFields, dumpsMoreFields, dumpsStr, List.length_append,
              List.length_cons, List.length_nil] at hfuel
            omega)
        (by simp only [stopsNum]; decide)
      have hdropBR : dropWs (braceR :: rest) = braceR :: rest :=
        dropWs_no_ws _ (by decide)
      have hdropC : dropWs (':' :: ' ' :: (dumpsVal v ++ braceR :: rest))
          = ':' :: ' ' :: (dumpsVal v ++ braceR :: rest) := dropWs_no_ws _ (by decide)
      simp only [parseEntries, hcs2, if_pos rfl, scanStr_escStr]
      simp [hdropC, hval, hdropBR]
      exact fun h => absurd h (by decide)
  | (k, v), (k2, v2) :: fs, fuel, cs, rest, hwf, hcs, hfuel => by
    cases fuel with
    | zero => exact absurd hfuel (by omega)
    | succ f =>
      have hwfv : jsonWF v = true := by
        simp only [jsonWFFields, Bool.and_eq_true] at hwf
        exact hwf.1
      have hwftail : jsonWFFields ((k2, v2) :: fs) = true := by
        simp only [jsonWFFields, Bool.and_eq_true] at hwf ⊢
        exact hwf.2
      have hcs2 : dropWs cs
          = '"' :: (escStr k.data ++ '"' :: (':' :: ' ' ::
              (dumpsVal v ++ (dumpsMoreFields ((k2, v2) :: fs) ++ braceR :: rest)))) := by
        rw [hcs]; simp [dumpsFields, dumpsStr, List.append_assoc]
      have hmore : dumpsMoreFields ((k2, v2) :: fs) ++ braceR :: rest
          = ',' :: (' ' :: (dumpsFields ((k2, v2) :: fs) ++ braceR :: rest)) := by
        simp [dumpsMoreFields, dumpsFields, List.append_assoc]
      have hstop : stopsNum (dumpsMoreFields ((k2, v2) :: fs) ++ braceR :: rest) = true := by
        rw [hmore]
        simp only [stopsNum]
        decide
      have hval := parse_dumps_val v f
        (' ' :: (dumpsVal v ++ (dumpsMoreFields ((k2, v2) :: fs) ++ braceR :: rest)))
        (dumpsMoreFields ((k2, v2) :: fs) ++ braceR :: rest) hwfv
        (by rw [dropWs_space]; exact dropWs_dumpsVal v _ hwfv)
        (by simp only [dumpsFields, dumpsStr, List.length_append,
              List.length_cons] at hfuel
            omega)
        hstop
      have hrec := parse_dumps_entries (k2, v2) fs f
        (' ' :: (dumpsFields ((k2, v2) :: fs) ++ braceR :: rest)) rest hwftail
        (by rw [dropWs_space]; exact dropWs_dumpsFields k2 v2 fs _)
        (by simp only [dumpsFields, dumpsMoreFields, dumpsStr, List.length_append,
              List.length_cons] at hfuel ⊢
            omega)
      have hdropMF : dropWs (dumpsMoreFields ((k2, v2) :: fs) ++ braceR :: rest)
          = ',' :: (' ' :: (dumpsFields ((k2, v2) :: fs) ++ braceR :: rest)) := by
        rw [hmore]; exact dropWs_no_ws _ (by decide)
      have hdropC : dropWs (':' :: ' ' ::
            (dumpsVal v ++ (dumpsMoreFields ((k2, v2) :: fs) ++ braceR :: rest)))
          = ':' :: ' ' ::
            (dumpsVal v ++ (dumpsMoreFields ((k2, v2) :: fs) ++ braceR :: rest)) :=
        dropWs_no_ws _ (by decide)
      simp only [parseEntries, hcs2, if_pos rfl, scanStr_escStr]
      simp [hdropC, hval, hdropMF, hrec]
  termination_by kv fs _ _ _ _ _ _ => 1 + sizeOf kv + sizeOf fs

end


/-- The round trip at the level of `json.dumps` and `json.loads`: parsing a
serialized well-formed value recovers it exactly. -/
theorem loads_dumps (j : Json) (h : jsonWF j = true) : loads (dumps j) = some j := by
  have hcs : dropWs (dumpsVal j) = dumpsVal j ++ [] := by
    rw [List.append_nil]
    obtain ⟨c, t, hhead, hws, _, _⟩ := dumpsVal_head j h
    rw [hhead, dropWs_no_ws _ hws]
  have hp := parse_dumps_val j ((dumpsVal j).length + 1) (dumpsVal j) [] h hcs
    (by omega) rfl
  simp only [loads, dumps, hp]
  rfl

/-- `hexDigitChar` output on a nibble value is never a newline. -/
theorem hexDigitChar_ne_newline {n : Nat} (h : n < 16) : hexDigitChar n ≠ '\n' := by
  interval_cases n <;> decide

/-- The escape of any character contains no raw newline. -/
theorem escChar_no_newline (c : Char) : '\n' ∉ escChar c := by
  rw [escChar]
  by_cases h1 : c = '"'
  · simp [h1]
  · rw [if_neg h1]
    by_cases h2 : c = '\\'
    · simp [h2]
    · rw [if_neg h2]
      by_cases h3 : c = '\n'
      · simp [h3]
      · rw [if_neg h3]
        by_cases h4 : c = '\r'
        · simp [h4]
        · rw [if_neg h4]
          by_cases h5 : c = '\t'
          · simp [h5]
          · rw [if_neg h5]
            by_cases h6 : c = Char.ofNat 8
            · simp [h6]
            · rw [if_neg h6]
              by_cases h7 : c = Char.ofNat 12
              · simp [h7]
              · rw [if_neg h7]
                by_cases h8 : c.toNat < 32
                · rw [if_pos h8]
                  intro hmem
                  simp only [List.mem_cons, List.not_mem_nil, or_false] at hmem
                  rcases hmem with h | h | h | h | h | h
                  · exact absurd h (by decide)
                  · exact absurd h (by decide)
                  · exact absurd h (by decide)
                  · exact absurd h (by decide)
                  · exact hexDigitChar_ne_newline (by omega) h.symm
                  · exact hexDigitChar_ne_newline (by omega) h.symm
                · rw [if_neg h8]
                  intro hmem
                  simp only [List.mem_cons, List.not_mem_nil, or_false] at hmem
                  exact h3 hmem.symm

/-- The body of a serialized string literal contains no raw newline. -/
theorem escStr_no_newline (cs : List Char) : '\n' ∉ escStr cs := by
  rw [escStr]
  intro hmem
  obtain ⟨c, -, hc⟩ := List.mem_flatMap.mp hmem
  exact escChar_no_newline c hc


mutual

/-- A serialized well-formed value contains no raw newline: `json.dumps`
escapes newlines inside strings and emits none elsewhere, so one record
always occupies one line of the JSONL file. -/
theorem dumpsVal_no_newline : ∀ (j : Json), jsonWF j = true → '\n' ∉ dumpsVal j
  | .jnull, _ => by decide
  | .jbool true, _ => by decide
  | .jbool false, _ => by decide
  | .jnum lit, h => by
    intro hmem
    have h2 : numLitOk lit = true := by simpa [jsonWF] using h
    simp only [dumpsVal] at hmem
    cases hdata : lit.data with
    | nil => rw [hdata] at hmem; cases hmem
    | cons c cs =>
      rw [numLitOk, hdata] at h2
      obtain ⟨-, hc1, hrest⟩ :
          isNumStart c = true ∧ isNumChar c = true ∧ ∀ x ∈ cs, isNumChar x = true := by
        simpa using h2
      rw [hdata] at hmem
      rcases List.mem_cons.mp hmem with heq | hmem2
      · rw [← heq] at hc1
        exact absurd hc1 (by decide)
      · exact absurd (hrest _ hmem2) (by decide)
  | .jstr s, _ => by
    intro hmem
    simp only [dumpsVal, dumpsStr] at hmem
    rcases List.mem_cons.mp hmem with h1 | h1
    · exact absurd h1 (by decide)
    · rcases List.mem_append.mp h1 with h1 | h1
      · exact escStr_no_newline _ h1
      · rcases List.mem_cons.mp h1 with h1 | h1
        · exact absurd h1 (by decide)
        · cases h1
  | .jarr [], _ => by
    intro hmem
    simp only [dumpsVal, dumpsElems] at hmem
    rcases List.mem_cons.mp hmem with h1 | h1
    · exact absurd h1 (by decide)
    · rcases List.mem_cons.mp h1 with h1 | h1
      · exact absurd h1 (by decide)
      · cases h1
  | .jarr (e :: es2), h => by
    intro hmem
    have hl : jsonWFList (e :: es2) = true := by simpa [jsonWF] using h
    obtain ⟨he, hes⟩ : jsonWF e = true ∧ jsonWFList es2 = true := by
      simpa [jsonWFList] using hl
    simp only [dumpsVal] at hmem
    rcases List.mem_cons.mp hmem with h1 | h1
    · exact absurd h1 (by decide)
    · rcases List.mem_append.mp h1 with h1 | h1
      · simp only [dumpsElems] at h1
        rcases List.mem_append.mp h1 with h1 | h1
        · exact dumpsVal_no_newline e he h1
        · exact dumpsMoreElems_no_newline es2 hes h1
      · rcases List.mem_cons.mp h1 with h1 | h1
        · exact absurd h1 (by decide)
        · cases h1
  | .jobj [], _ => by
    intro hmem
    simp only [dumpsVal, dumpsFields] at hmem
    rcases List.mem_cons.mp hmem with h1 | h1
    · exact absurd h1 (by decide)
    · rcases List.mem_cons.mp h1 with h1 | h1
      · exact absurd h1 (by decide)
      · cases h1
  | .jobj ((k, v) :: fs2), h => by
    intro hmem
    have hl : jsonWFFields ((k, v) :: fs2) = true := by simpa [jsonWF] using h
    obtain ⟨hv, hfs⟩ : jsonWF v = true ∧ jsonWFFields fs2 = true := by
      simpa [jsonWFFields] using hl
    simp only [dumpsVal] at hmem
    rcases List.mem_cons.mp hmem with h1 | h1
    · exact absurd h1 (by decide)
    · rcases List.mem_append.mp h1 with h1 | h1
      · simp only [dumpsFields, dumpsStr] at h1
        rcases List.mem_append.mp h1 with h1 | h1
        · rcases List.mem_cons.mp h1 with h1 | h1
          · exact absurd h1 (by decide)
          · rcases List.mem_append.mp h1 with h1 | h1
            · exact escStr_no_newline _ h1
            · rcases List.mem_cons.mp h1 with h1 | h1
              · exact absurd h1 (by decide)
              · cases h1
        · rcases List.mem_cons.mp h1 with h1 | h1
          · exact absurd h1 (by decide)
          · rcases List.mem_cons.mp h1 with h1 | h1
            · exact absurd h1 (by decide)
            · rcases List.mem_append.mp h1 with h1 | h1
              · exact dumpsVal_no_newline v hv h1
              · exact dumpsMoreFields_no_newline fs2 hfs h1
      · rcases List.mem_cons.mp h1 with h1 | h1
        · exact absurd h1 (by decide)
        · cases h1
  termination_by j _ => sizeOf j

/-- The serialized tail of an element list contains no raw newline. -/
theorem dumpsMoreElems_no_newline :
    ∀ (es : List Json), jsonWFList es = true → '\n' ∉ dumpsMoreElems es
  | [], _ => by simp [dumpsMoreElems]
  | e :: es, h => by
    intro hmem
    obtain ⟨he, hes⟩ : jsonWF e = true ∧ jsonWFList es = true := by
      simpa [jsonWFList] using h
    simp only [dumpsMoreElems] at hmem
    rcases List.mem_cons.mp hmem with h1 | h1
    · exact absurd h1 (by decide)
    · rcases List.mem_cons.mp h1 with h1 | h1
      · exact absurd h1 (by decide)
      · rcases List.mem_append.mp h1 with h1 | h1
        · exact dumpsVal_no_newline e he h1
        · exact dumpsMoreElems_no_newline es hes h1
  termination_by es _ => 1 + sizeOf es

/-- The serialized tail of a member list contains no raw newline. -/
theorem dumpsMoreFields_no_newline :
    ∀ (fs : List (String × Json)), jsonWFFields fs = true → '\n' ∉ dumpsMoreFields fs
  | [], _ => by simp [dumpsMoreFields]
  | (k, v) :: fs, h => by
    intro hmem
    obtain ⟨hv, hfs⟩ : jsonWF v = true ∧ jsonWFFields fs = true := by
      simpa [jsonWFFields] using h
    simp only [dumpsMoreFields, dumpsStr] at hmem
    rcases List.mem_cons.mp hmem with h1 | h1
    · exact absurd h1 (by decide)
    · rcases List.mem_cons.mp h1 with h1 | h1
      · exact absurd h1 (by decide)
      · rcases List.mem_append.mp h1 with h1 | h1
        · rcases List.mem_cons.mp h1 with h1 | h1
          · exact absurd h1 (by decide)
          · rcases List.mem_append.mp h1 with h1 | h1
            · exact escStr_no_newline _ h1
            · rcases List.mem_cons.mp h1 with h1 | h1
              · exact absurd h1 (by decide)
              · cases h1
        · rcases List.mem_cons.mp h1 with h1 | h1
          · exact absurd h1 (by decide)
          · rcases List.mem_cons.mp h1 with h1 | h1
            · exact absurd h1 (by decide)
            · rcases List.mem_append.mp h1 with h1 | h1
              · exact dumpsVal_no_newline v hv h1
              · exact dumpsMoreFields_no_newline fs hfs h1
  termination_by fs _ => 1 + sizeOf fs

end

/-- Splitting after one newline-free line recovers it. -/
theorem splitlines_line (l r : List Char) (h : '\n' ∉ l) :
    splitlines (l ++ '\n' :: r) = l :: splitlines r := by
  induction l with
  | nil => simp [splitlines]
  | cons c t ih =>
    have hc : ¬(c = '\n') := fun he => h (he ▸ List.mem_cons_self c t)
    have ht : '\n' ∉ t := fun hm => h (List.mem_cons_of_mem c hm)
    simp only [List.cons_append, splitlines, if_neg hc, List.append_eq]
    rw [ih ht]

/-- Splitting the file `write_jsonl` writes recovers exactly the serialized
records, one line each, in order. -/
theorem splitlines_write_jsonl :
    ∀ (data : List Json), (∀ j ∈ data, jsonWF j = true) →
    splitlines (write_jsonl data) = data.map dumpsVal
  | [], _ => rfl
  | j :: rest, h => by
    have hj := h j (List.mem_cons_self j rest)
    have hrest := fun x hx => h x (List.mem_cons_of_mem j hx)
    have hshape : write_jsonl (j :: rest) = dumpsVal j ++ '\n' :: write_jsonl rest := by
      simp [write_jsonl, List.append_assoc]
    rw [hshape, splitlines_line _ _ (dumpsVal_no_newline j hj),
      splitlines_write_jsonl rest hrest, List.map_cons]

/-- Every Task Request Record the collector can build is well formed. -/
theorem modelInputRecord_wf (record_id file_content : String) :
    jsonWF (modelInputRecord record_id file_content) = true := by
  rfl

/-- Serialized well-formed records decode line by line to themselves. -/
theorem map_loads_dumps (records : List Json)
    (h : ∀ j ∈ records, jsonWF j = true) :
    (records.map dumpsVal).map (fun line => loads (String.mk line))
      = records.map some := by
  induction records with
  | nil => rfl
  | cons j rest ih =>
    simp only [List.map_cons]
    rw [show loads (String.mk (dumpsVal j)) = some j from
        loads_dumps j (h j (List.mem_cons_self j rest)),
      ih fun x hx => h x (List.mem_cons_of_mem j hx)]

/-- C4. Serializing Task Request Records with `write_jsonl` and decoding the
file line by line with `json.loads` is the identity: every line parses back
to the record it was written from, and list length and order are preserved. -/
theorem write_jsonl_loads_roundtrip (ps : List (String × String)) :
    (splitlines (write_jsonl (ps.map fun p => modelInputRecord p.1 p.2))).map
        (fun line => loads (String.mk line))
      = (ps.map fun p => modelInputRecord p.1 p.2).map some := by
  have hwf : ∀ j ∈ ps.map (fun p => modelInputRecord p.1 p.2), jsonWF j = true := by
    intro j hj
    obtain ⟨p, -, rfl⟩ := List.mem_map.mp hj
    exact modelInputRecord_wf p.1 p.2
  rw [splitlines_write_jsonl _ hwf, map_loads_dumps _ hwf]


/-! ### The output-retrieval cell: claims -/

/-- The retrieval loop consumes parsable lines, appending one entry each, and
stops at the first failing line keeping what was already appended. -/
theorem retrieveAux_stops_at_bad :
    ∀ (good : List (List Char)) (bad : List Char) (rest : List (List Char))
      (acc : List Json),
      (∀ l ∈ good, (parseLine l).isSome = true) → parseLine bad = none →
      retrieveAux (good ++ bad :: rest) acc = (acc ++ good.filterMap parseLine, true)
  | [], bad, rest, acc, _, hbad => by
    simp [retrieveAux, hbad]
  | l :: good, bad, rest, acc, hgood, hbad => by
    obtain ⟨entry, hentry⟩ :=
      Option.isSome_iff_exists.mp (hgood l (List.mem_cons_self l good))
    have ih := retrieveAux_stops_at_bad good bad rest (acc ++ [entry])
      (fun x hx => hgood x (List.mem_cons_of_mem l hx)) hbad
    simp only [List.cons_append, retrieveAux, hentry, List.filterMap_cons,
      List.append_eq]
    rw [ih]
    simp [List.append_assoc]

/-- C7 (counterexample): an output file whose first line is valid and whose
second line is not JSON. The `except` arm catches the decode error, but
`output_data` keeps the entry appended for the first line: the resulting
collection is a one-element partial prefix, not empty. -/
theorem retrieve_output_data_partial_counterexample :
    (retrieve_output_data sampleBadFile).2 = true
    ∧ (retrieve_output_data sampleBadFile).1.length = 1 := ⟨rfl, rfl⟩

/-- C7 (amended). When the lines of the output file split into parsable lines
`good`, a first malformed line `bad` and anything after, the retrieval stops
at `bad` with the exception caught (flag `true`) and returns exactly the
entries of the lines before it: a partial prefix, not an empty collection and
not a propagated error. -/
theorem retrieve_output_data_partial_prefix (json_data : List Char)
    (good : List (List Char)) (bad : List Char) (rest : List (List Char))
    (hsplit : splitlines json_data = good ++ bad :: rest)
    (hgood : ∀ l ∈ good, (parseLine l).isSome = true)
    (hbad : parseLine bad = none) :
    retrieve_output_data json_data = (good.filterMap parseLine, true) := by
  rw [retrieve_output_data, hsplit]
  simpa using retrieveAux_stops_at_bad good bad rest [] hgood hbad

/-- Witness for the amended C7, on the concrete two-line file. -/
theorem retrieve_output_data_partial_prefix_witness :
    retrieve_output_data sampleBadFile
      = ([dumpsVal (outputLineJson sampleLineData)].filterMap parseLine, true) :=
  retrieve_output_data_partial_prefix sampleBadFile
    [dumpsVal (outputLineJson sampleLineData)]
    ('n' :: 'o' :: 't' :: ' ' :: 'j' :: 's' :: 'o' :: 'n' :: []) []
    (by rfl)
    (by
      intro l hl
      rcases List.mem_singleton.mp hl with rfl
      rfl)
    (by rfl)

/-- C8 (counterexample): the retrieval cell never fetches the manifest file;
the only key it reads is the per-record output file. -/
theorem retrieval_no_manifest_fetch :
    ¬ ("model-input" ++ "/" ++ "output" ++ "/" ++ "job-123" ++ "/" ++ "manifest.json.out")
        ∈ retrieval_get_keys "model-input" "output" "job-123" "batch-001.jsonl" := by
  decide

/-- A service output line with acceptable number literals is well formed. -/
theorem outputLineJson_wf (d : OutputLineData) (h : outputLineDataOk d = true) :
    jsonWF (outputLineJson d) = true := by
  obtain ⟨⟨⟨⟨⟨h1, h2⟩, h3⟩, h4⟩, h5⟩, h6⟩ :
      ((((numLitOk d.inTok = true ∧ numLitOk d.outTok = true) ∧ numLitOk d.maxTok = true)
        ∧ numLitOk d.temperatureLit = true) ∧ numLitOk d.topP = true)
        ∧ numLitOk d.topK = true := by
    simpa [outputLineDataOk, Bool.and_eq_true] using h
  simp [outputLineJson, jsonWF, jsonWFFields, jsonWFList, h1, h2, h3, h4, h5, h6]

/-- One serialized service output line decodes and extracts to exactly the
corresponding `output_entry`. -/
theorem parseLine_outputLine (d : OutputLineData) (h : outputLineDataOk d = true) :
    parseLine (dumpsVal (outputLineJson d)) = some (expectedEntry d) := by
  rw [parseLine, show loads (String.mk (dumpsVal (outputLineJson d)))
      = some (outputLineJson d) from loads_dumps _ (outputLineJson_wf d h)]
  rfl

/-- The retrieval loop over serialized service output lines produces one
entry per line, in file order, with no error. -/
theorem retrieveAux_all_lines_ok :
    ∀ (ds : List OutputLineData) (acc : List Json),
      (∀ d ∈ ds, outputLineDataOk d = true) →
      retrieveAux (ds.map fun d => dumpsVal (outputLineJson d)) acc
        = (acc ++ ds.map expectedEntry, false)
  | [], acc, _ => by simp [retrieveAux]
  | d :: ds, acc, h => by
    have hline := parseLine_outputLine d (h d (List.mem_cons_self d ds))
    have ih := retrieveAux_all_lines_ok ds (acc ++ [expectedEntry d])
      (fun x hx => h x (List.mem_cons_of_mem d hx))
    simp only [List.map_cons, retrieveAux, hline, ih]
    simp [List.append_assoc]

/-- C8 (amended). The retriever fetches exactly one object, the per-record
output file at the key formed from the two prefixes, the job identifier and
the input filename with `.out` appended — it does not fetch the manifest —
and, over a well-formed output file, produces one Output Record per line in
file order, carrying the generated text, the usage counters and the four
originating generation parameters. -/
theorem retrieval_fetches_only_output_file (summaryPfx outPfx job_id filename : String)
    (ds : List OutputLineData) (hok : ∀ d ∈ ds, outputLineDataOk d = true) :
    retrieval_get_keys summaryPfx outPfx job_id filename
        = [summaryPfx ++ "/" ++ outPfx ++ "/" ++ job_id ++ "/" ++ filename ++ ".out"]
    ∧ retrieve_output_data (write_jsonl (ds.map outputLineJson))
        = (ds.map expectedEntry, false) := by
  refine ⟨rfl, ?_⟩
  have hwf : ∀ j ∈ ds.map outputLineJson, jsonWF j = true := by
    intro j hj
    obtain ⟨d, hd, rfl⟩ := List.mem_map.mp hj
    exact outputLineJson_wf d (hok d hd)
  rw [retrieve_output_data, splitlines_write_jsonl _ hwf, List.map_map]
  simpa using retrieveAux_all_lines_ok ds [] hok

/-- Witness for the amended C8, on a one-line output file with concrete
names. -/
theorem retrieval_fetches_only_output_file_witness :
    retrieval_get_keys "model-input" "output" "job-123" "batch-001.jsonl"
        = ["model-input" ++ "/" ++ "output" ++ "/" ++ "job-123" ++ "/"
            ++ "batch-001.jsonl" ++ ".out"]
    ∧ retrieve_output_data (write_jsonl ([sampleLineData].map outputLineJson))
        = ([sampleLineData].map expectedEntry, false) :=
  retrieval_fetches_only_output_file "model-input" "output" "job-123" "batch-001.jsonl"
    [sampleLineData]
    (by
      intro d hd
      rcases List.mem_singleton.mp hd with rfl
      rfl)

end BatchInference
